import Mathlib

/-!
Shallow embedding of `src/epcsaft/parameters.rs` (ePC-SAFT parameter
construction) from the feos repository.  `f64` values are modelled as real
numbers; Rust `panic!` sites inside fallible construction are modelled as
`Except.error` outcomes.  Array1/Array2 become lists and index functions.
-/

namespace EPcSaft

/-- Modelled from the spec: the permittivity subsystem's tagged union
(`PermittivityRecord` lives outside `src/`); two variants, perturbation
theory (three coefficient arrays) and experimental data (list of
temperature/value point sequences), exactly as consumed by
`from_records`. -/
inductive PermittivityRecord where
  | perturbationTheory (dipole_scaling polarizability_scaling
      correlation_integral_parameter : List ℝ)
  | experimentalData (data : List (List (ℝ × ℝ)))

/-- Modelled from the spec: per-component association descriptor
(association strength, association energy, site counts A/B/C); the record
type lives outside `src/` but its five fields are fixed by their use in
`from_segments`. -/
structure AssociationRecord where
  kappa_ab : ℝ
  epsilon_k_ab : ℝ
  na : ℝ
  nb : ℝ
  nc : ℝ

/-- Modelled from the spec: binary association override (optional
association strength / energy), fields fixed by `ElectrolytePcSaftBinaryRecord::new`. -/
structure BinaryAssociationRecord where
  kappa_ab : Option ℝ
  epsilon_k_ab : Option ℝ

/-- `ElectrolytePcSaftRecord`: PC-SAFT pure-component parameters
(src/epcsaft/parameters.rs, lines 16-48). -/
structure ElectrolytePcSaftRecord where
  m : ℝ
  sigma : ℝ
  epsilon_k : ℝ
  mu : Option ℝ := none
  q : Option ℝ := none
  association_record : Option AssociationRecord := none
  viscosity : Option (ℝ × ℝ × ℝ × ℝ) := none
  diffusion : Option (ℝ × ℝ × ℝ × ℝ × ℝ) := none
  thermal_conductivity : Option (ℝ × ℝ × ℝ × ℝ) := none
  z : Option ℝ := none
  permittivity_record : Option PermittivityRecord := none

/-- Modelled from the spec: component identity is opaque to the core except
for the display name used by the `sigma_t` naming convention, so only the
`name` field of `feos_core`'s `Identifier` is retained. -/
structure Identifier where
  name : Option String := none

/-- Modelled from the spec: `feos_core::parameter::PureRecord` as used in
`from_records`: identifier, molar weight, and the model record. -/
structure PureRecord where
  identifier : Identifier
  molarweight : ℝ
  model_record : ElectrolytePcSaftRecord

/-- `ElectrolytePcSaftBinaryRecord` (src/epcsaft/parameters.rs, lines 264-272). -/
structure ElectrolytePcSaftBinaryRecord where
  k_ij : List ℝ := []
  association : Option BinaryAssociationRecord := none

/-- `f64::cbrt`: the real (odd) cube root. -/
noncomputable def cbrt (x : ℝ) : ℝ :=
  if 0 ≤ x then x ^ ((1 : ℝ) / 3) else -((-x) ^ ((1 : ℝ) / 3))

/-- Rust `Iterator::reduce` with `+`: `none` on the empty list, otherwise the
left fold of the tail starting from the head. -/
def reduceAdd (l : List ℝ) : Option ℝ :=
  match l with
  | [] => none
  | x :: xs => some (xs.foldl (· + ·) x)

/-- `Iterator::reduce` for the five association accumulators. -/
def reduceAdd5 (l : List (ℝ × ℝ × ℝ × ℝ × ℝ)) : Option (ℝ × ℝ × ℝ × ℝ × ℝ) :=
  match l with
  | [] => none
  | x :: xs =>
      some (xs.foldl
        (fun a b => (a.1 + b.1, a.2.1 + b.2.1, a.2.2.1 + b.2.2.1,
          a.2.2.2.1 + b.2.2.2.1, a.2.2.2.2 + b.2.2.2.2)) x)

/-- `FromSegments<f64>::from_segments` for `ElectrolytePcSaftRecord`
(src/epcsaft/parameters.rs, lines 50-166).  The source always returns `Ok`,
so the embedding returns the record directly.  The `unwrap()` calls on
`viscosity`/`thermal_conductivity` inside the second loop are guarded by the
all-or-nothing initialisation and are modelled by `Option.getD`. -/
noncomputable def from_segments
    (segments : List (ElectrolytePcSaftRecord × ℝ)) : ElectrolytePcSaftRecord :=
  let m := segments.foldl (fun acc p => acc + p.1.m * p.2) 0
  let sigma3 := segments.foldl (fun acc p => acc + p.1.m * p.1.sigma ^ 3 * p.2) 0
  let epsilon_k := segments.foldl (fun acc p => acc + p.1.m * p.1.epsilon_k * p.2) 0
  let z := segments.foldl (fun acc p => acc + p.1.z.getD 0) 0
  let q := reduceAdd (segments.filterMap (fun p => p.1.q.map (· * p.2)))
  let mu := reduceAdd (segments.filterMap (fun p => p.1.mu.map (· * p.2)))
  let association_record :=
    (reduceAdd5 (segments.filterMap (fun p =>
      p.1.association_record.map (fun record =>
        (record.kappa_ab * p.2, record.epsilon_k_ab * p.2, record.na * p.2,
          record.nb * p.2, record.nc * p.2))))).map
      (fun t => AssociationRecord.mk t.1 t.2.1 t.2.2.1 t.2.2.2.1 t.2.2.2.2)
  let viscosity0 : Option (ℝ × ℝ × ℝ × ℝ) :=
    if segments.all (fun p => p.1.viscosity.isSome) then some (0, 0, 0, 0) else none
  let thermal0 : Option (ℝ × ℝ × ℝ × ℝ) :=
    if segments.all (fun p => p.1.thermal_conductivity.isSome) then
      some (0, 0, 0, 0)
    else none
  let diffusion : Option (ℝ × ℝ × ℝ × ℝ × ℝ) :=
    if segments.all (fun p => p.1.diffusion.isSome) then some (0, 0, 0, 0, 0)
    else none
  let n_t := segments.foldl (fun acc p => acc + p.2) 0
  let step := fun (st : Option (ℝ × ℝ × ℝ × ℝ) × Option (ℝ × ℝ × ℝ × ℝ))
      (p : ElectrolytePcSaftRecord × ℝ) =>
    let s3 := p.1.m * p.1.sigma ^ 3 * p.2
    let v := st.1.map (fun acc =>
      let c := p.1.viscosity.getD (0, 0, 0, 0)
      (acc.1 + s3 * c.1, acc.2.1 + s3 * c.2.1 / sigma3 ^ (0.45 : ℝ),
        acc.2.2.1 + p.2 * c.2.2.1, acc.2.2.2 + p.2 * c.2.2.2))
    let t := st.2.map (fun acc =>
      let c := p.1.thermal_conductivity.getD (0, 0, 0, 0)
      (acc.1 + p.2 * c.1, acc.2.1 + p.2 * c.2.1,
        acc.2.2.1 + p.2 * c.2.2.1, acc.2.2.2 + n_t * c.2.2.2))
    (v, t)
  let folded := segments.foldl step (viscosity0, thermal0)
  let viscosity := folded.1.map (fun v =>
    (v.1 - 0.5 * Real.log m, v.2.1, v.2.2.1, v.2.2.2))
  { m := m
    sigma := cbrt (sigma3 / m)
    epsilon_k := epsilon_k / m
    mu := mu
    q := q
    association_record := association_record
    viscosity := viscosity
    diffusion := diffusion
    thermal_conductivity := folded.2
    z := some z
    permittivity_record := none }

/-- A simple concrete segment record used by witnesses. -/
def segA : ElectrolytePcSaftRecord := { m := 2, sigma := 3, epsilon_k := 100 }

/-- Construction errors: each constructor corresponds to one `panic!` site in
`from_records` (src/epcsaft/parameters.rs): over-long `k_ij` coefficient list
for a component pair (lines 468-469), too few permittivity records for the
solvents (lines 533-534), mixed permittivity model kinds (lines 553, 562),
unsorted experimental permittivity points for a component (lines 570-571),
and a missing consolidated permittivity while ions are present (lines
589-590).  `emptyPermittivityData` models the Rust index-out-of-bounds panic
on `dipole_scaling[0]` / `data[0]` for an empty inner array. -/
inductive ParameterError where
  | kijTooLong (i j : ℕ)
  | missingPermittivityRecords
  | inconsistentPermittivityModels
  | unsortedPermittivityPoints (i : ℕ)
  | emptyPermittivityData
  | missingPermittivity

/-- Per-component `m` array (from_records, line 386). -/
def mList (recs : List PureRecord) : List ℝ :=
  recs.map (fun r => r.model_record.m)

/-- Per-component `sigma` array (line 387). -/
def sigmaList (recs : List PureRecord) : List ℝ :=
  recs.map (fun r => r.model_record.sigma)

/-- Per-component `epsilon_k` array (line 388). -/
def epsilonKList (recs : List PureRecord) : List ℝ :=
  recs.map (fun r => r.model_record.epsilon_k)

/-- Per-component `mu` array, missing values defaulting to 0 (line 389). -/
def muList (recs : List PureRecord) : List ℝ :=
  recs.map (fun r => r.model_record.mu.getD 0)

/-- Per-component `q` array, missing values defaulting to 0 (line 390). -/
def qList (recs : List PureRecord) : List ℝ :=
  recs.map (fun r => r.model_record.q.getD 0)

/-- Per-component charge array `z`, missing values defaulting to 0 (line 391). -/
def zList (recs : List PureRecord) : List ℝ :=
  recs.map (fun r => r.model_record.z.getD 0)

/-- Per-component molar weight array (line 396). -/
def molarweightList (recs : List PureRecord) : List ℝ :=
  recs.map (fun r => r.molarweight)

/-- Display names with the `unwrap_or("unknown")` default (lines 445-449). -/
def nameList (recs : List PureRecord) : List String :=
  recs.map (fun r => r.identifier.name.getD "unknown")

/-- Modelled from the spec: the dimensionless value of `JOULE / KELVIN / KB`
from `feos_core::si` (outside `src/`), i.e. the reciprocal of the SI
Boltzmann constant. -/
noncomputable def jouleKelvinPerKb : ℝ := 1 / 1.380649e-23

/-- Reduced dipole moment squared `mu2` (lines 399-401). -/
noncomputable def mu2List (recs : List PureRecord) : List ℝ :=
  (List.range recs.length).map (fun i =>
    (muList recs).getD i 0 * (muList recs).getD i 0 /
        ((mList recs).getD i 0 * (sigmaList recs).getD i 0 *
          (sigmaList recs).getD i 0 * (sigmaList recs).getD i 0 *
          (epsilonKList recs).getD i 0) *
      1e-19 * jouleKelvinPerKb)

/-- Reduced quadrupole moment squared `q2` (lines 402-404). -/
noncomputable def q2List (recs : List PureRecord) : List ℝ :=
  (List.range recs.length).map (fun i =>
    (qList recs).getD i 0 * (qList recs).getD i 0 /
        ((mList recs).getD i 0 * (sigmaList recs).getD i 0 ^ (5 : ℕ) *
          (epsilonKList recs).getD i 0) *
      1e-19 * jouleKelvinPerKb)

/-- Indices of components with `mu2.abs() > 0` (lines 405-409). -/
noncomputable def dipoleComp (recs : List PureRecord) : List ℕ :=
  (List.range recs.length).filter (fun i => decide (0 < |(mu2List recs).getD i 0|))

/-- Indices of components with `q2.abs() > 0` (lines 411-415). -/
noncomputable def quadpoleComp (recs : List PureRecord) : List ℕ :=
  (List.range recs.length).filter (fun i => decide (0 < |(q2List recs).getD i 0|))

/-- Indices of ionic components, `z.abs() > 0` (lines 428-432). -/
noncomputable def ionicComp (recs : List PureRecord) : List ℕ :=
  (List.range recs.length).filter (fun i => decide (0 < |(zList recs).getD i 0|))

/-- Indices of solvent components, `z.abs() == 0` (lines 436-440). -/
noncomputable def solventComp (recs : List PureRecord) : List ℕ :=
  (List.range recs.length).filter (fun i => decide (|(zList recs).getD i 0| = 0))

/-- Whether `pat` matches at the head of a character list. -/
def leadMatch : List Char → List Char → Bool
  | [], _ => true
  | _ :: _, [] => false
  | a :: as, b :: bs => a == b && leadMatch as bs

/-- Whether `pat` occurs contiguously anywhere in a character list. -/
def subMatch (pat : List Char) : List Char → Bool
  | [] => leadMatch pat []
  | b :: bs => leadMatch pat (b :: bs) || subMatch pat bs

/-- Rust `str::contains` for a literal pattern. -/
def strContains (s pat : String) : Bool := subMatch pat.data s.data

/-- Indices of components whose display name contains the marker
`"sigma_t"` (lines 443-460). -/
def sigmaTComp (recs : List PureRecord) : List ℕ :=
  (List.range recs.length).filter
    (fun i => strContains ((nameList recs).getD i "unknown") "sigma_t")

/-- The 4-element zero vector used to initialise every `k_ij` entry (line 462). -/
def zero4 : List ℝ := [0, 0, 0, 0]

/-- All `(i, j)` index pairs in the row-major order of the nested loops of
lines 465-476. -/
def pairList (n : ℕ) : List (ℕ × ℕ) :=
  (List.range n).flatMap (fun i => (List.range n).map (fun j => (i, j)))

/-- The first pair (in row-major order) whose binary record carries more
than 4 `k_ij` coefficients — the pair named by the panic of lines 468-469. -/
def firstLongPair (n : ℕ)
    (b : ℕ → ℕ → ElectrolytePcSaftBinaryRecord) : Option (ℕ × ℕ) :=
  (pairList n).find? (fun p => decide (4 < (b p.1 p.2).k_ij.length))

/-- The `k_ij` length check applied only when binary records are present. -/
def kijFirstLong (n : ℕ)
    (binary : Option (ℕ → ℕ → ElectrolytePcSaftBinaryRecord)) : Option (ℕ × ℕ) :=
  match binary with
  | none => none
  | some b => firstLongPair n b

/-- The inner loop of lines 471-473: overwrite the first `temp.length`
entries of `base` with the entries of `temp`. -/
def overwritePrefix (base temp : List ℝ) : List ℝ :=
  (List.range temp.length).foldl (fun acc k => acc.set k (temp.getD k 0)) base

/-- One user-supplied `k_ij` entry written over the zero-initialised
4-element vector (lines 462-476). -/
def kijFill (b : ℕ → ℕ → ElectrolytePcSaftBinaryRecord) : ℕ → ℕ → List ℝ :=
  fun i j => overwritePrefix zero4 ((b i j).k_ij)

/-- Update one entry of an index-pair-keyed matrix of coefficient vectors. -/
def upd2 (K : ℕ → ℕ → List ℝ) (a b : ℕ) (v : List ℝ) : ℕ → ℕ → List ℝ :=
  fun i j => if i = a ∧ j = b then v else K i j

/-- The body of the ionic self-pair override (lines 479-484): set entry 0 of
`k_ij[(a,a)]` to 1 and entries 1..4 to 0. -/
def setSelf (K : ℕ → ℕ → List ℝ) (a : ℕ) : ℕ → ℕ → List ℝ :=
  upd2 K a a (((((K a a).set 0 1).set 1 0).set 2 0).set 3 0)

/-- The finished `k_ij` matrix (lines 462-485): all-zero vectors when no
binary records are given; otherwise the user-filled matrix with the ionic
self-pairs overridden. -/
noncomputable def kijMatrix (recs : List PureRecord)
    (binary : Option (ℕ → ℕ → ElectrolytePcSaftBinaryRecord)) :
    ℕ → ℕ → List ℝ :=
  match binary with
  | none => fun _ _ => zero4
  | some b => (ionicComp recs).foldl setSelf (kijFill b)

/-- The permittivity records of the components that carry one, in component
order (lines 528-531). -/
def permittivityRecords (recs : List PureRecord) : List PermittivityRecord :=
  recs.filterMap (fun r => r.model_record.permittivity_record)

/-- The mutable state of the permittivity-merging loop of lines 537-577. -/
structure MergeState where
  modeltype : ℤ
  mu_scaling : List ℝ
  alpha_scaling : List ℝ
  ci_param : List ℝ
  points : List (List (ℝ × ℝ))

/-- The sortedness check of lines 567-574: scan the points, failing when a
temperature drops below the previous one (starting from `t_check = 0`). -/
noncomputable def sortedFrom (t : ℝ) : List (ℝ × ℝ) → Bool
  | [] => true
  | p :: rest => if p.1 < t then false else sortedFrom p.1 rest

/-- The permittivity-merging loop (lines 543-577), with the Rust panics as
errors; `i` is the enumeration index used in the unsorted-points message. -/
noncomputable def permittivityFold :
    ℕ → MergeState → List PermittivityRecord → Except ParameterError MergeState
  | _, st, [] => .ok st
  | i, st, r :: rest =>
    match r with
    | .perturbationTheory ds ps cip =>
      if st.modeltype = 2 then .error .inconsistentPermittivityModels
      else
        match ds, ps, cip with
        | d0 :: _, p0 :: _, c0 :: _ =>
            permittivityFold (i + 1)
              ⟨1, st.mu_scaling ++ [d0], st.alpha_scaling ++ [p0],
                st.ci_param ++ [c0], st.points⟩ rest
        | _, _, _ => .error .emptyPermittivityData
    | .experimentalData data =>
      if st.modeltype = 1 then .error .inconsistentPermittivityModels
      else
        match data with
        | d0 :: _ =>
            if sortedFrom 0 d0 then
              permittivityFold (i + 1)
                ⟨2, st.mu_scaling, st.alpha_scaling, st.ci_param,
                  st.points ++ [d0]⟩ rest
            else .error (.unsortedPermittivityPoints i)
        | [] => .error .emptyPermittivityData

/-- The consolidated permittivity model (lines 579-587). -/
def mkPermittivity (st : MergeState) : Option PermittivityRecord :=
  if st.modeltype = 1 then
    some (.perturbationTheory st.mu_scaling st.alpha_scaling st.ci_param)
  else if st.modeltype = 2 then some (.experimentalData st.points)
  else none

/-- All-or-nothing collection of per-component entropy-scaling coefficient
sets (lines 496-525): absent when any component lacks the set. -/
def allSomeList {α : Type} (l : List (Option α)) (d : α) : Option (List α) :=
  if l.any (fun v => v.isNone) then none else some (l.map (fun v => v.getD d))

/-- `ElectrolytePcSaftParameters` (src/epcsaft/parameters.rs, lines 328-357).
The `association` field is omitted: `AssociationParameters` and its
construction live outside `src/` and no claim touches it. -/
structure ElectrolytePcSaftParameters where
  molarweight : List ℝ
  m : List ℝ
  sigma : List ℝ
  epsilon_k : List ℝ
  mu : List ℝ
  q : List ℝ
  mu2 : List ℝ
  q2 : List ℝ
  z : List ℝ
  k_ij : ℕ → ℕ → List ℝ
  sigma_ij : ℕ → ℕ → ℝ
  e_k_ij : ℕ → ℕ → ℝ
  ndipole : ℕ
  nquadpole : ℕ
  nionic : ℕ
  nsolvent : ℕ
  sigma_t_comp : List ℕ
  dipole_comp : List ℕ
  quadpole_comp : List ℕ
  ionic_comp : List ℕ
  solvent_comp : List ℕ
  viscosity : Option (List (ℝ × ℝ × ℝ × ℝ))
  diffusion : Option (List (ℝ × ℝ × ℝ × ℝ × ℝ))
  thermal_conductivity : Option (List (ℝ × ℝ × ℝ × ℝ))
  permittivity : Option PermittivityRecord
  pure_records : List PureRecord
  binary_records : Option (ℕ → ℕ → ElectrolytePcSaftBinaryRecord)

/-- `Parameter::from_records` for `ElectrolytePcSaftParameters`
(src/epcsaft/parameters.rs, lines 363-623), with the panics as errors in
source order: the `k_ij` length check (lines 464-476) precedes the
permittivity-count check (lines 533-535), the permittivity merge
(lines 543-577) and the final missing-permittivity check (lines 589-591). -/
noncomputable def from_records (pure_records : List PureRecord)
    (binary_records : Option (ℕ → ℕ → ElectrolytePcSaftBinaryRecord)) :
    Except ParameterError ElectrolytePcSaftParameters :=
  match kijFirstLong pure_records.length binary_records with
  | some p => .error (.kijTooLong p.1 p.2)
  | none =>
    if (ionicComp pure_records).length ≠ 0 ∧
        (permittivityRecords pure_records).length <
          (solventComp pure_records).length then
      .error .missingPermittivityRecords
    else
      match permittivityFold 0 ⟨-1, [], [], [], []⟩
          (permittivityRecords pure_records) with
      | .error e => .error e
      | .ok st =>
        if 0 < (ionicComp pure_records).length ∧
            (mkPermittivity st).isNone = true then
          .error .missingPermittivity
        else
          .ok
            { molarweight := molarweightList pure_records
              m := mList pure_records
              sigma := sigmaList pure_records
              epsilon_k := epsilonKList pure_records
              mu := muList pure_records
              q := qList pure_records
              mu2 := mu2List pure_records
              q2 := q2List pure_records
              z := zList pure_records
              k_ij := kijMatrix pure_records binary_records
              sigma_ij := fun i j =>
                0.5 * ((sigmaList pure_records).getD i 0 +
                  (sigmaList pure_records).getD j 0)
              e_k_ij := fun i j =>
                Real.sqrt ((epsilonKList pure_records).getD i 0 *
                  (epsilonKList pure_records).getD j 0)
              ndipole := (dipoleComp pure_records).length
              nquadpole := (quadpoleComp pure_records).length
              nionic := (ionicComp pure_records).length
              nsolvent := (solventComp pure_records).length
              sigma_t_comp := sigmaTComp pure_records
              dipole_comp := dipoleComp pure_records
              quadpole_comp := quadpoleComp pure_records
              ionic_comp := ionicComp pure_records
              solvent_comp := solventComp pure_records
              viscosity := allSomeList
                (pure_records.map (fun r => r.model_record.viscosity))
                (0, 0, 0, 0)
              diffusion := allSomeList
                (pure_records.map (fun r => r.model_record.diffusion))
                (0, 0, 0, 0, 0)
              thermal_conductivity := allSomeList
                (pure_records.map (fun r => r.model_record.thermal_conductivity))
                (0, 0, 0, 0)
              permittivity := mkPermittivity st
              pure_records := pure_records
              binary_records := binary_records }

/-- `HardSphereProperties::sigma_t` (lines 655-663): start from the static
`sigma` array and, for each loop counter `i` below `sigma_t_comp.len()`,
replace entry `i` (the loop counter itself, exactly as in the source) by the
empirically corrected value.  The numeric type `D` is modelled as `ℝ`, so
`.re()` is the identity. -/
noncomputable def sigma_t (p : ElectrolytePcSaftParameters)
    (temperature : ℝ) : List ℝ :=
  (List.range p.sigma_t_comp.length).foldl
    (fun acc i => acc.set i
      (acc.getD i 0 + Real.exp (temperature * -0.01775) * 10.11 -
        Real.exp (temperature * -0.01146) * 1.417))
    p.sigma

/-- `HardSphereProperties::hs_diameter` (lines 641-653): the generic
temperature correction for every component, then the ionic components are
overridden with the fixed factor `1 - 0.12`. -/
noncomputable def hs_diameter (p : ElectrolytePcSaftParameters)
    (temperature : ℝ) : List ℝ :=
  let st := sigma_t p temperature
  let ti := temperature⁻¹ * -3
  let d := (List.range st.length).map
    (fun i => -(Real.exp (ti * p.epsilon_k.getD i 0) * 0.12 - 1) * st.getD i 0)
  (List.range p.nionic).foldl
    (fun acc k => acc.set (p.ionic_comp.getD k 0)
      (st.getD (p.ionic_comp.getD k 0) 0 * (1 - 0.12))) d

/-- `HardSphereProperties::sigma_ij_t` (lines 665-677). -/
noncomputable def sigma_ij_t (p : ElectrolytePcSaftParameters)
    (temperature : ℝ) : ℕ → ℕ → ℝ :=
  fun i j =>
    ((sigma_t p temperature).getD i 0 + (sigma_t p temperature).getD j 0) * 0.5

/-- A concrete solvent record carrying an experimental permittivity record. -/
def wRec : PureRecord :=
  { identifier := { name := some "w" }
    molarweight := 18
    model_record := { m := 1, sigma := 3, epsilon_k := 200
                      permittivity_record :=
                        some (.experimentalData [[(1, 80)]]) } }

/-- The same solvent without any permittivity record. -/
def wBareRec : PureRecord :=
  { identifier := { name := some "w" }
    molarweight := 18
    model_record := { m := 1, sigma := 3, epsilon_k := 200 } }

/-- A concrete ionic record (charge 1), no permittivity record. -/
def naRec : PureRecord :=
  { identifier := { name := some "na" }
    molarweight := 23
    model_record := { m := 1, sigma := 2, epsilon_k := 100, z := some 1 } }

/-- Concrete component list: one solvent with permittivity, one ion. -/
def exRecs : List PureRecord := [wRec, naRec]

/-- Concrete component list whose solvent has no permittivity record. -/
def exBareRecs : List PureRecord := [wBareRec, naRec]

/-- A concrete binary-record matrix: one `k_ij` coefficient for every pair. -/
def exB : ℕ → ℕ → ElectrolytePcSaftBinaryRecord :=
  fun _ _ => { k_ij := [0.5] }

/-- A concrete binary-record matrix with five coefficients on every pair. -/
def badB : ℕ → ℕ → ElectrolytePcSaftBinaryRecord :=
  fun _ _ => { k_ij := [1, 2, 3, 4, 5] }

/-- The parameter set `from_records exRecs none` produces. -/
noncomputable def exPS : ElectrolytePcSaftParameters :=
  { molarweight := molarweightList exRecs
    m := mList exRecs
    sigma := sigmaList exRecs
    epsilon_k := epsilonKList exRecs
    mu := muList exRecs
    q := qList exRecs
    mu2 := mu2List exRecs
    q2 := q2List exRecs
    z := zList exRecs
    k_ij := kijMatrix exRecs none
    sigma_ij := fun i j =>
      0.5 * ((sigmaList exRecs).getD i 0 + (sigmaList exRecs).getD j 0)
    e_k_ij := fun i j =>
      Real.sqrt ((epsilonKList exRecs).getD i 0 * (epsilonKList exRecs).getD j 0)
    ndipole := (dipoleComp exRecs).length
    nquadpole := (quadpoleComp exRecs).length
    nionic := (ionicComp exRecs).length
    nsolvent := (solventComp exRecs).length
    sigma_t_comp := sigmaTComp exRecs
    dipole_comp := dipoleComp exRecs
    quadpole_comp := quadpoleComp exRecs
    ionic_comp := ionicComp exRecs
    solvent_comp := solventComp exRecs
    viscosity := allSomeList (exRecs.map (fun r => r.model_record.viscosity))
      (0, 0, 0, 0)
    diffusion := allSomeList (exRecs.map (fun r => r.model_record.diffusion))
      (0, 0, 0, 0, 0)
    thermal_conductivity :=
      allSomeList (exRecs.map (fun r => r.model_record.thermal_conductivity))
        (0, 0, 0, 0)
    permittivity := some (.experimentalData [[(1, 80)]])
    pure_records := exRecs
    binary_records := none }

/-- The parameter set `from_records exRecs (some exB)` produces. -/
noncomputable def exPSB : ElectrolytePcSaftParameters :=
  { exPS with
    k_ij := kijMatrix exRecs (some exB)
    binary_records := some exB }

/-- A parameter set with only the fields relevant to the hard-sphere
geometry populated; used to exercise `sigma_t` and `hs_diameter`. -/
def simpleParams (sigma epsilon_k : List ℝ) (ionic sigmaT : List ℕ) :
    ElectrolytePcSaftParameters :=
  { molarweight := [], m := [], sigma := sigma, epsilon_k := epsilon_k,
    mu := [], q := [], mu2 := [], q2 := [], z := [],
    k_ij := fun _ _ => zero4, sigma_ij := fun _ _ => 0, e_k_ij := fun _ _ => 0,
    ndipole := 0, nquadpole := 0, nionic := ionic.length, nsolvent := 0,
    sigma_t_comp := sigmaT, dipole_comp := [], quadpole_comp := [],
    ionic_comp := ionic, solvent_comp := [],
    viscosity := none, diffusion := none, thermal_conductivity := none,
    permittivity := none, pure_records := [], binary_records := none }

/-- Two components of which only the SECOND is flagged by the `sigma_t`
naming convention (`sigma_t_comp = [1]`). -/
def bugParams : ElectrolytePcSaftParameters := simpleParams [3, 4] [200, 100] [] [1]

/-- Two components of which the second is ionic. -/
def ionParams : ElectrolytePcSaftParameters := simpleParams [3, 2] [200, 100] [1] []

/-- Left fold of `+ f p` starting at `c` equals `c` plus the sum of `map f`. -/
theorem foldl_add_eq_sum {α : Type} (f : α → ℝ) (l : List α) (c : ℝ) :
    l.foldl (fun acc p => acc + f p) c = c + (l.map f).sum := by
  induction l generalizing c with
  | nil => simp
  | cons x xs ih => simp [ih (c + f x)]; ring

/-- A fold whose step preserves list length preserves list length. -/
theorem foldl_length_invariant {α : Type} (f : List ℝ → α → List ℝ)
    (hf : ∀ acc a, (f acc a).length = acc.length) (l : List α) (d : List ℝ) :
    (l.foldl f d).length = d.length := by
  induction l generalizing d with
  | nil => rfl
  | cons x xs ih => rw [List.foldl_cons, ih, hf]

/-- `getD` after `set`. -/
theorem getD_set (d : List ℝ) (j : ℕ) (v : ℝ) (i : ℕ) :
    (d.set j v).getD i 0 = if j = i ∧ j < d.length then v else d.getD i 0 := by
  by_cases hj : j = i
  · subst hj
    by_cases hlt : j < d.length
    · simp [List.getD_eq_getElem?_getD, List.getElem?_set, hlt]
    · rw [List.set_eq_of_length_le (Nat.le_of_not_lt hlt)]
      simp [hlt]
  · simp [List.getD_eq_getElem?_getD, List.getElem?_set, hj]

/-- `getD` of a fold of writes whose written value depends only on the
written index. -/
theorem foldl_set_getD_indep {α : Type} (idx : α → ℕ) (f : ℕ → ℝ)
    (l : List α) (d : List ℝ) (i : ℕ) (hi : i < d.length) :
    (l.foldl (fun acc a => acc.set (idx a) (f (idx a))) d).getD i 0 =
      if i ∈ l.map idx then f i else d.getD i 0 := by
  induction l generalizing d with
  | nil => simp
  | cons x xs ih =>
    rw [List.foldl_cons]
    rw [ih (d.set (idx x) (f (idx x))) (by simpa using hi)]
    by_cases hmem : i ∈ xs.map idx
    · simp [hmem]
    · rw [if_neg hmem, getD_set]
      by_cases hx : idx x = i
      · subst hx
        simp [hi]
      · simp [hmem, hx, Ne.symm hx]

/-- `getD` of a fold of writes where each write updates its own entry with a
function of that entry's current value, over pairwise-distinct indices. -/
theorem foldl_set_self_getD (g : ℝ → ℝ) (l : List ℕ) (hl : l.Nodup)
    (d : List ℝ) (i : ℕ) :
    (l.foldl (fun acc a => acc.set a (g (acc.getD a 0))) d).getD i 0 =
      if i ∈ l ∧ i < d.length then g (d.getD i 0) else d.getD i 0 := by
  induction l generalizing d with
  | nil => simp
  | cons x xs ih =>
    have hx : x ∉ xs := (List.nodup_cons.mp hl).1
    have hxs : xs.Nodup := (List.nodup_cons.mp hl).2
    rw [List.foldl_cons, ih hxs]
    rw [List.length_set]
    by_cases hmem : i ∈ xs
    · by_cases hlen : i < d.length
      · rw [if_pos ⟨hmem, hlen⟩,
          if_pos ⟨List.mem_cons_of_mem x hmem, hlen⟩, getD_set]
        have hne : ¬(x = i) := fun h => hx (h ▸ hmem)
        simp [hne]
      · rw [if_neg (fun h => hlen h.2), if_neg (fun h => hlen h.2), getD_set]
        have : ¬(x = i ∧ x < d.length) := by
          rintro ⟨rfl, h⟩; exact hlen h
        simp [this]
    · by_cases hxi : x = i
      · subst hxi
        by_cases hlen : x < d.length
        · rw [if_neg (fun h => hmem h.1), getD_set,
            if_pos ⟨rfl, hlen⟩, if_pos ⟨List.mem_cons_self x xs, hlen⟩]
        · rw [if_neg (fun h => hmem h.1), getD_set,
            if_neg (fun h => hlen h.2), if_neg (fun h => hlen h.2)]
      · have hni : i ∉ x :: xs := by
          intro hc
          rcases List.mem_cons.mp hc with h1 | h2
          · exact hxi h1.symm
          · exact hmem h2
        rw [if_neg (fun h => hmem h.1), getD_set,
          if_neg (fun h => hxi h.1), if_neg (fun h => hni h.1)]

/-- Reading every position of a list back from its indices reproduces it. -/
theorem map_getD_range (l : List ℕ) :
    (List.range l.length).map (fun k => l.getD k 0) = l := by
  apply List.ext_getElem
  · simp
  · intro i h1 h2
    simp [List.getD_eq_getElem?_getD, List.getElem?_eq_getElem h2]

/-- Two real lists of equal length with equal `getD` values agree. -/
theorem ext_length_getD (l l' : List ℝ) (hlen : l.length = l'.length)
    (h : ∀ i, i < l.length → l.getD i 0 = l'.getD i 0) : l = l' := by
  apply List.ext_getElem hlen
  intro i h1 h2
  have := h i h1
  rwa [List.getD_eq_getElem?_getD, List.getD_eq_getElem?_getD,
    List.getElem?_eq_getElem h1, List.getElem?_eq_getElem h2] at this

/-- Every position of a replicate-of-zero list reads back 0. -/
theorem getD_replicate_zero (k j : ℕ) :
    (List.replicate k (0 : ℝ)).getD j 0 = 0 := by
  induction k generalizing j with
  | zero => simp
  | succ n ih =>
    cases j with
    | zero => simp [List.replicate_succ]
    | succ j => simpa [List.replicate_succ] using ih j

/-- `overwritePrefix` keeps the base list's length. -/
theorem length_overwritePrefix (base temp : List ℝ) :
    (overwritePrefix base temp).length = base.length := by
  unfold overwritePrefix
  exact foldl_length_invariant _ (fun acc a => by simp) _ _

/-- Pointwise description of `overwritePrefix`. -/
theorem overwritePrefix_getD (base temp : List ℝ) (i : ℕ)
    (hi : i < base.length) :
    (overwritePrefix base temp).getD i 0 =
      if i < temp.length then temp.getD i 0 else base.getD i 0 := by
  have h := foldl_set_getD_indep (fun k : ℕ => k) (fun k => temp.getD k 0)
      (List.range temp.length) base i hi
  refine h.trans ?_
  by_cases hc : i < temp.length
  · rw [if_pos (by simpa using hc), if_pos hc]
  · rw [if_neg (by simpa using hc), if_neg hc]

/-- Overwriting the zero-initialised 4-vector with at most 4 coefficients
yields those coefficients padded with zeros to length 4. -/
theorem overwritePrefix_zero4 (temp : List ℝ) (h : temp.length ≤ 4) :
    overwritePrefix zero4 temp = temp ++ List.replicate (4 - temp.length) 0 := by
  apply ext_length_getD
  · rw [length_overwritePrefix]
    simp [zero4]
    omega
  · intro i hi
    rw [length_overwritePrefix] at hi
    have hi4 : i < 4 := by simpa [zero4] using hi
    rw [overwritePrefix_getD _ _ _ (by simpa [zero4] using hi)]
    by_cases hc : i < temp.length
    · rw [if_pos hc, List.getD_append _ _ _ _ hc]
    · rw [if_neg hc]
      have h1 : zero4.getD i 0 = 0 := by
        have h2 : zero4 = List.replicate 4 (0 : ℝ) := by simp [zero4]
        rw [h2, getD_replicate_zero]
      rw [h1, List.getD_append_right _ _ _ _ (Nat.le_of_not_lt hc),
        getD_replicate_zero]

/-- The ionic self-pair override value of a length-4 vector is `[1,0,0,0]`. -/
theorem set_self_value (l : List ℝ) (h : l.length = 4) :
    ((((l.set 0 1).set 1 0).set 2 0).set 3 0) = [1, 0, 0, 0] := by
  match l, h with
  | [a, b, c, d], _ => rfl

/-- `setSelf` keeps all entries at length 4. -/
theorem setSelf_length (K : ℕ → ℕ → List ℝ) (a : ℕ)
    (h : ∀ x y, (K x y).length = 4) : ∀ x y, (setSelf K a x y).length = 4 := by
  intro x y
  unfold setSelf upd2
  by_cases hc : x = a ∧ y = a
  · rw [if_pos hc]
    simp [h]
  · rw [if_neg hc]
    exact h x y

/-- Entries not on an overridden diagonal position are untouched by the
ionic override fold. -/
theorem foldl_setSelf_untouched (l : List ℕ) (K : ℕ → ℕ → List ℝ) (i j : ℕ)
    (h : ¬(i = j ∧ i ∈ l)) : (l.foldl setSelf K) i j = K i j := by
  induction l generalizing K with
  | nil => rfl
  | cons x xs ih =>
    rw [List.foldl_cons,
      ih _ (fun hc => h ⟨hc.1, List.mem_cons_of_mem x hc.2⟩)]
    unfold setSelf upd2
    rw [if_neg]
    rintro ⟨h1, h2⟩
    exact h ⟨h1.trans h2.symm, h1 ▸ List.mem_cons_self x xs⟩

/-- Once a diagonal entry holds `[1,0,0,0]`, the override fold keeps it. -/
theorem foldl_setSelf_keep (l : List ℕ) (K : ℕ → ℕ → List ℝ) (a : ℕ)
    (h : K a a = [1, 0, 0, 0]) : (l.foldl setSelf K) a a = [1, 0, 0, 0] := by
  induction l generalizing K with
  | nil => exact h
  | cons x xs ih =>
    rw [List.foldl_cons]
    apply ih
    unfold setSelf upd2
    by_cases hc : a = x
    · subst hc
      rw [if_pos ⟨rfl, rfl⟩, h]
      rfl
    · rw [if_neg (fun hh => hc hh.1), h]

/-- The ionic override fold puts `[1,0,0,0]` on every listed diagonal entry,
provided all entries have length 4. -/
theorem foldl_setSelf_diag (l : List ℕ) (K : ℕ → ℕ → List ℝ)
    (hlen : ∀ x y, (K x y).length = 4) (a : ℕ) (ha : a ∈ l) :
    (l.foldl setSelf K) a a = [1, 0, 0, 0] := by
  induction l generalizing K with
  | nil => cases ha
  | cons x xs ih =>
    rw [List.foldl_cons]
    rcases List.mem_cons.mp ha with rfl | hmem
    · apply foldl_setSelf_keep
      unfold setSelf upd2
      rw [if_pos ⟨rfl, rfl⟩]
      exact set_self_value _ (hlen a a)
    · exact ih _ (setSelf_length K x hlen) hmem

/-- Every entry of the user-filled `k_ij` matrix has length 4. -/
theorem kijFill_length (b : ℕ → ℕ → ElectrolytePcSaftBinaryRecord) :
    ∀ i j, (kijFill b i j).length = 4 := by
  intro i j
  unfold kijFill
  rw [length_overwritePrefix]
  rfl

/-- Inversion of a successful construction: the fields of the produced
parameter set are the stage values. -/
theorem from_records_ok_fields (recs : List PureRecord)
    (binary : Option (ℕ → ℕ → ElectrolytePcSaftBinaryRecord))
    (ps : ElectrolytePcSaftParameters)
    (h : from_records recs binary = .ok ps) :
    ps.z = zList recs ∧ ps.k_ij = kijMatrix recs binary ∧
    ps.ionic_comp = ionicComp recs ∧ ps.solvent_comp = solventComp recs ∧
    ps.sigma_t_comp = sigmaTComp recs ∧
    ps.nionic = (ionicComp recs).length := by
  unfold from_records at h
  split at h
  · simp at h
  · split at h
    · simp at h
    · split at h
      · simp at h
      · split at h
        · simp at h
        · rw [Except.ok.injEq] at h
          subst h
          exact ⟨rfl, rfl, rfl, rfl, rfl, rfl⟩

/-- Membership in the ionic index list. -/
theorem mem_ionicComp (recs : List PureRecord) (i : ℕ) :
    i ∈ ionicComp recs ↔ i < recs.length ∧ (zList recs).getD i 0 ≠ 0 := by
  unfold ionicComp
  simp [List.mem_filter, abs_pos]

/-- Membership in the solvent index list. -/
theorem mem_solventComp (recs : List PureRecord) (i : ℕ) :
    i ∈ solventComp recs ↔ i < recs.length ∧ (zList recs).getD i 0 = 0 := by
  unfold solventComp
  simp [List.mem_filter, abs_eq_zero]

/-- C6: for every parameter set built from `n` component records,
`ionic_comp` collects exactly the indices with nonzero charge,
`solvent_comp` exactly those with zero charge, the two lists are disjoint,
their union is `{0, …, n-1}`, and both are strictly increasing. -/
theorem ionic_solvent_partition (recs : List PureRecord)
    (binary : Option (ℕ → ℕ → ElectrolytePcSaftBinaryRecord))
    (ps : ElectrolytePcSaftParameters)
    (h : from_records recs binary = .ok ps) :
    (∀ i, i ∈ ps.ionic_comp ↔ i < recs.length ∧ ps.z.getD i 0 ≠ 0) ∧
    (∀ i, i ∈ ps.solvent_comp ↔ i < recs.length ∧ ps.z.getD i 0 = 0) ∧
    ps.ionic_comp.Disjoint ps.solvent_comp ∧
    (∀ i, i < recs.length ↔ (i ∈ ps.ionic_comp ∨ i ∈ ps.solvent_comp)) ∧
    List.Pairwise (· < ·) ps.ionic_comp ∧
    List.Pairwise (· < ·) ps.solvent_comp := by
  obtain ⟨hz, -, hic, hsc, -, -⟩ := from_records_ok_fields recs binary ps h
  rw [hz, hic, hsc]
  refine ⟨mem_ionicComp recs, mem_solventComp recs, ?_, ?_, ?_, ?_⟩
  · intro a haI haS
    exact ((mem_ionicComp recs a).mp haI).2 ((mem_solventComp recs a).mp haS).2
  · intro i
    constructor
    · intro hn
      by_cases hz0 : (zList recs).getD i 0 = 0
      · exact Or.inr ((mem_solventComp recs i).mpr ⟨hn, hz0⟩)
      · exact Or.inl ((mem_ionicComp recs i).mpr ⟨hn, hz0⟩)
    · rintro (hI | hS)
      · exact ((mem_ionicComp recs i).mp hI).1
      · exact ((mem_solventComp recs i).mp hS).1
  · exact List.Pairwise.sublist (List.filter_sublist _)
      (List.pairwise_lt_range recs.length)
  · exact List.Pairwise.sublist (List.filter_sublist _)
      (List.pairwise_lt_range recs.length)

/-- C8: with no binary records, every entry of the produced `k_ij` matrix is
the zero vector, ionic self-pairs included. -/
theorem kij_zero_without_binary (recs : List PureRecord)
    (ps : ElectrolytePcSaftParameters)
    (h : from_records recs none = .ok ps) :
    ∀ i j, ps.k_ij i j = [0, 0, 0, 0] := by
  obtain ⟨-, hk, -, -, -, -⟩ := from_records_ok_fields recs none ps h
  intro i j
  rw [hk]
  rfl

/-- C1 (amended): when binary records ARE supplied, the self-pair of every
ionic component of the produced parameter set is forced to `[1,0,0,0]`,
overriding any user-supplied value. -/
theorem kij_ionic_self_forced (recs : List PureRecord)
    (b : ℕ → ℕ → ElectrolytePcSaftBinaryRecord)
    (ps : ElectrolytePcSaftParameters)
    (h : from_records recs (some b) = .ok ps) :
    ∀ i, i ∈ ps.ionic_comp → ps.k_ij i i = [1, 0, 0, 0] := by
  obtain ⟨-, hk, hic, -, -, -⟩ := from_records_ok_fields recs (some b) ps h
  intro i hi
  rw [hic] at hi
  rw [hk]
  show (ionicComp recs).foldl setSelf (kijFill b) i i = _
  exact foldl_setSelf_diag _ _ (kijFill_length b) i hi

/-- C3: whenever some component is ionic and fewer components carry a
permittivity record than there are solvent components, construction fails
(no parameter set is produced). -/
theorem missing_solvent_permittivity_fatal (recs : List PureRecord)
    (binary : Option (ℕ → ℕ → ElectrolytePcSaftBinaryRecord))
    (h1 : ∃ i, i < recs.length ∧ (zList recs).getD i 0 ≠ 0)
    (h2 : (permittivityRecords recs).length < (solventComp recs).length) :
    ∃ e, from_records recs binary = .error e := by
  have hion : (ionicComp recs).length ≠ 0 := by
    obtain ⟨i, hi, hz⟩ := h1
    have hmem : i ∈ ionicComp recs := (mem_ionicComp recs i).mpr ⟨hi, hz⟩
    intro hlen
    rw [List.length_eq_zero] at hlen
    rw [hlen] at hmem
    cases hmem
  unfold from_records
  rcases kijFirstLong recs.length binary with _ | p
  · rw [if_pos ⟨hion, h2⟩]
    exact ⟨_, rfl⟩
  · exact ⟨_, rfl⟩

/-- Membership in the row-major pair list. -/
theorem mem_pairList (n : ℕ) (p : ℕ × ℕ) :
    p ∈ pairList n ↔ p.1 < n ∧ p.2 < n := by
  unfold pairList
  cases p with
  | mk i j => simp [List.mem_flatMap, List.mem_map, List.mem_range]

/-- The permittivity merge never produces a `kijTooLong` error. -/
theorem permittivityFold_error_kind (l : List PermittivityRecord) (i : ℕ)
    (st : MergeState) (e : ParameterError) (a b : ℕ)
    (h : permittivityFold i st l = .error e) : e ≠ .kijTooLong a b := by
  induction l generalizing i st with
  | nil =>
    unfold permittivityFold at h
    simp at h
  | cons r rest ih =>
    unfold permittivityFold at h
    split at h
    · split at h
      · injection h with h
        subst h
        simp
      · split at h
        · exact ih _ _ h
        · injection h with h
          subst h
          simp
    · split at h
      · injection h with h
        subst h
        simp
      · split at h
        · split at h
          · exact ih _ _ h
          · injection h with h
            subst h
            simp
        · injection h with h
          subst h
          simp

/-- C5: construction fails with a `kijTooLong` error — naming an offending
pair — exactly when some supplied binary record carries more than 4 `k_ij`
coefficients; records of at most 4 coefficients are written over the prefix
of the zero-initialised 4-element vector. -/
theorem kij_length_check (recs : List PureRecord)
    (b : ℕ → ℕ → ElectrolytePcSaftBinaryRecord) :
    ((∃ i j, i < recs.length ∧ j < recs.length ∧ 4 < (b i j).k_ij.length) →
      ∃ i j, from_records recs (some b) = .error (.kijTooLong i j) ∧
        i < recs.length ∧ j < recs.length ∧ 4 < (b i j).k_ij.length) ∧
    ((∀ i j, i < recs.length → j < recs.length → (b i j).k_ij.length ≤ 4) →
      (∀ i j, from_records recs (some b) ≠ .error (.kijTooLong i j)) ∧
      (∀ i j, (b i j).k_ij.length ≤ 4 →
        kijFill b i j =
          (b i j).k_ij ++ List.replicate (4 - (b i j).k_ij.length) 0)) := by
  constructor
  · rintro ⟨i, j, hi, hj, hlen⟩
    have hmem : ((i, j) : ℕ × ℕ) ∈ pairList recs.length :=
      (mem_pairList recs.length (i, j)).mpr ⟨hi, hj⟩
    have hsome : (firstLongPair recs.length b).isSome := by
      rw [firstLongPair, List.find?_isSome]
      exact ⟨(i, j), hmem, by simpa using hlen⟩
    obtain ⟨p, hp⟩ := Option.isSome_iff_exists.mp hsome
    have hpred : 4 < (b p.1 p.2).k_ij.length := by
      have := List.find?_some hp
      simpa using this
    have hpmem := (mem_pairList recs.length p).mp (List.mem_of_find?_eq_some hp)
    refine ⟨p.1, p.2, ?_, hpmem.1, hpmem.2, hpred⟩
    have hk : kijFirstLong recs.length (some b) = some p := hp
    unfold from_records
    rw [hk]
  · intro hall
    have hnone : firstLongPair recs.length b = none := by
      rw [firstLongPair, List.find?_eq_none]
      intro p hpmem hdec
      have hgt := of_decide_eq_true hdec
      have hb := (mem_pairList recs.length p).mp hpmem
      exact absurd hgt (Nat.not_lt.mpr (hall p.1 p.2 hb.1 hb.2))
    have hk : kijFirstLong recs.length (some b) = none := hnone
    constructor
    · intro i j hcontra
      unfold from_records at hcontra
      rw [hk] at hcontra
      split at hcontra
      · rename_i p heq
        exact Option.noConfusion heq
      · split at hcontra
        · simp at hcontra
        · split at hcontra
          · rename_i e heq
            injection hcontra with hcontra
            exact permittivityFold_error_kind _ _ _ _ i j heq hcontra
          · split at hcontra
            · simp at hcontra
            · simp at hcontra
    · intro i j hle
      unfold kijFill
      exact overwritePrefix_zero4 _ hle

/-- `sigma_t` keeps the length of the static `sigma` array. -/
theorem length_sigma_t (p : ElectrolytePcSaftParameters) (T : ℝ) :
    (sigma_t p T).length = p.sigma.length := by
  unfold sigma_t
  exact foldl_length_invariant _ (fun acc a => by simp) _ _

/-- Pointwise description of `sigma_t`: the correction is applied to the
components whose INDEX is below `sigma_t_comp.length` (the loop counter of
the source, not the stored component index). -/
theorem sigma_t_getD (p : ElectrolytePcSaftParameters) (T : ℝ) (i : ℕ) :
    (sigma_t p T).getD i 0 =
      if i < p.sigma_t_comp.length ∧ i < p.sigma.length then
        p.sigma.getD i 0 + Real.exp (T * -0.01775) * 10.11 -
          Real.exp (T * -0.01146) * 1.417
      else p.sigma.getD i 0 := by
  unfold sigma_t
  have h := foldl_set_self_getD
      (fun x => x + Real.exp (T * -0.01775) * 10.11 -
        Real.exp (T * -0.01146) * 1.417)
      (List.range p.sigma_t_comp.length) (List.nodup_range _) p.sigma i
  refine h.trans ?_
  by_cases hc : i < p.sigma_t_comp.length ∧ i < p.sigma.length
  · rw [if_pos ⟨List.mem_range.mpr hc.1, hc.2⟩, if_pos hc]
  · rw [if_neg (fun hh => hc ⟨List.mem_range.mp hh.1, hh.2⟩), if_neg hc]

/-- C2 (code bug): with two components of which only the SECOND carries the
`sigma_t` flag, the flagged component keeps its static `sigma` while the
unflagged first component is modified — the loop writes by loop counter
instead of by the flagged index. -/
theorem sigma_t_flag_mismatch :
    1 ∈ bugParams.sigma_t_comp ∧ 0 ∉ bugParams.sigma_t_comp ∧
    (sigma_t bugParams 0).getD 1 0 = bugParams.sigma.getD 1 0 ∧
    (sigma_t bugParams 0).getD 0 0 ≠ bugParams.sigma.getD 0 0 := by
  refine ⟨by simp [bugParams, simpleParams], by simp [bugParams, simpleParams],
    ?_, ?_⟩
  · rw [sigma_t_getD]
    simp [bugParams, simpleParams]
  · rw [sigma_t_getD, if_pos (by simp [bugParams, simpleParams])]
    simp [bugParams, simpleParams, Real.exp_zero]
    norm_num

/-- `getD` over a mapped range. -/
theorem getD_map_range (f : ℕ → ℝ) (n i : ℕ) (h : i < n) :
    ((List.range n).map f).getD i 0 = f i := by
  rw [List.getD_eq_getElem?_getD, List.getElem?_map, List.getElem?_range h]
  rfl

/-- C4: the hard-sphere diameter is
`sigma_t · (1 − 0.12·exp(−3·epsilon_k/T))` for non-ionic components and
exactly `0.88 · sigma_t` for ionic components, independent of `epsilon_k`
and `T`. -/
theorem hs_diameter_spec (p : ElectrolytePcSaftParameters) (T : ℝ) (i : ℕ)
    (hn : p.nionic = p.ionic_comp.length) (hT : 0 < T)
    (hi : i < p.sigma.length) :
    (i ∉ p.ionic_comp →
      (hs_diameter p T).getD i 0 =
        (sigma_t p T).getD i 0 *
          (1 - 0.12 * Real.exp (-3 * p.epsilon_k.getD i 0 / T))) ∧
    (i ∈ p.ionic_comp →
      (hs_diameter p T).getD i 0 = 0.88 * (sigma_t p T).getD i 0) := by
  have hlen : (sigma_t p T).length = p.sigma.length := length_sigma_t p T
  have hTne : T ≠ 0 := ne_of_gt hT
  simp only [hs_diameter]
  have hinit : i <
      ((List.range (sigma_t p T).length).map
        (fun k => -(Real.exp (T⁻¹ * -3 * p.epsilon_k.getD k 0) * 0.12 - 1) *
          (sigma_t p T).getD k 0)).length := by
    rw [List.length_map, List.length_range, hlen]
    exact hi
  rw [hn]
  have hfold := foldl_set_getD_indep (fun k => p.ionic_comp.getD k 0)
      (fun a => (sigma_t p T).getD a 0 * (1 - 0.12))
      (List.range p.ionic_comp.length)
      ((List.range (sigma_t p T).length).map
        (fun k => -(Real.exp (T⁻¹ * -3 * p.epsilon_k.getD k 0) * 0.12 - 1) *
          (sigma_t p T).getD k 0))
      i hinit
  dsimp only at hfold
  rw [map_getD_range] at hfold
  constructor
  · intro hmem
    rw [hfold, if_neg hmem,
      getD_map_range _ _ _ (by rw [hlen]; exact hi)]
    have harg : T⁻¹ * -3 * p.epsilon_k.getD i 0 =
        -3 * p.epsilon_k.getD i 0 / T := by ring
    rw [harg]
    ring
  · intro hmem
    rw [hfold, if_pos hmem]
    ring

/-- C7: for a non-empty list of (segment, count) pairs, the aggregated record
has `m = Σ (m_s · n_s)`, `sigma = ((Σ m_s · sigma_s³ · n_s) / m)^(1/3)` (real
cube root) and `epsilon_k = (Σ m_s · epsilon_k_s · n_s) / m`. -/
theorem from_segments_aggregates (segments : List (ElectrolytePcSaftRecord × ℝ))
    (h : segments ≠ []) :
    (from_segments segments).m = (segments.map (fun p => p.1.m * p.2)).sum ∧
    (from_segments segments).sigma =
      cbrt ((segments.map (fun p => p.1.m * p.1.sigma ^ 3 * p.2)).sum /
        (segments.map (fun p => p.1.m * p.2)).sum) ∧
    (from_segments segments).epsilon_k =
      (segments.map (fun p => p.1.m * p.1.epsilon_k * p.2)).sum /
        (segments.map (fun p => p.1.m * p.2)).sum := by
  refine ⟨?_, ?_, ?_⟩ <;>
    simp [from_segments, foldl_add_eq_sum]

/-- Witness for C7: a concrete one-segment aggregation. -/
theorem from_segments_aggregates_witness :
    [(segA, (1 : ℝ))] ≠ [] ∧
    ((from_segments [(segA, (1 : ℝ))]).m =
        ([(segA, (1 : ℝ))].map (fun p => p.1.m * p.2)).sum ∧
      (from_segments [(segA, (1 : ℝ))]).sigma =
        cbrt (([(segA, (1 : ℝ))].map (fun p => p.1.m * p.1.sigma ^ 3 * p.2)).sum /
          ([(segA, (1 : ℝ))].map (fun p => p.1.m * p.2)).sum) ∧
      (from_segments [(segA, (1 : ℝ))]).epsilon_k =
        ([(segA, (1 : ℝ))].map (fun p => p.1.m * p.1.epsilon_k * p.2)).sum /
          ([(segA, (1 : ℝ))].map (fun p => p.1.m * p.2)).sum) :=
  ⟨by simp, from_segments_aggregates [(segA, (1 : ℝ))] (by simp)⟩

/-- C9: the aggregated charge is always present and is the unweighted sum of
the segments' charges (missing charges count as 0, the count `n_s` is not a
factor), while `mu` and `q` are aggregated weighted by `n_s` over the
segments that define them. -/
theorem from_segments_charge (segments : List (ElectrolytePcSaftRecord × ℝ)) :
    (from_segments segments).z =
      some ((segments.map (fun p => p.1.z.getD 0)).sum) ∧
    (from_segments segments).mu =
      reduceAdd (segments.filterMap (fun p => p.1.mu.map (· * p.2))) ∧
    (from_segments segments).q =
      reduceAdd (segments.filterMap (fun p => p.1.q.map (· * p.2))) := by
  refine ⟨?_, ?_, ?_⟩ <;> simp [from_segments, foldl_add_eq_sum]

/-- C10: the aggregated record never carries a permittivity record. -/
theorem from_segments_permittivity
    (segments : List (ElectrolytePcSaftRecord × ℝ)) :
    (from_segments segments).permittivity_record = none := by
  simp [from_segments]



/-- The charges of the concrete two-component system. -/
theorem zList_exRecs : zList exRecs = [0, 1] := by
  simp [zList, exRecs, wRec, naRec]

/-- The ion of the concrete system is component 1. -/
theorem ionicComp_exRecs : ionicComp exRecs = [1] := by
  simp [ionicComp, zList, exRecs, wRec, naRec, List.range_succ]

/-- The solvent of the concrete system is component 0. -/
theorem solventComp_exRecs : solventComp exRecs = [0] := by
  simp [solventComp, zList, exRecs, wRec, naRec, List.range_succ]

/-- The concrete system carries exactly one permittivity record. -/
theorem permRecords_exRecs : permittivityRecords exRecs =
    [.experimentalData [[((1 : ℝ), 80)]]] := by
  simp [permittivityRecords, exRecs, wRec, naRec]

/-- Merging the concrete system's permittivity records succeeds. -/
theorem permFold_exRecs : permittivityFold 0 ⟨-1, [], [], [], []⟩
    [.experimentalData [[((1 : ℝ), 80)]]] =
    .ok ⟨2, [], [], [], [[(1, 80)]]⟩ := by
  unfold permittivityFold
  norm_num [sortedFrom]
  rfl

/-- The construction on the concrete system with no binary records
succeeds and produces `exPS`. -/
theorem exEval : from_records exRecs none = .ok exPS := by
  unfold from_records
  have hk : kijFirstLong exRecs.length none = none := rfl
  rw [hk]
  rw [if_neg (by
    rintro ⟨-, hlt⟩
    rw [permRecords_exRecs, solventComp_exRecs] at hlt
    simp at hlt)]
  rw [permRecords_exRecs, permFold_exRecs]
  split
  · rename_i p heq
    exact Option.noConfusion heq
  · split
    · rename_i e heq
      exact Except.noConfusion heq
    · rename_i st heq
      injection heq with heq
      subst heq
      rw [if_neg (by
        rintro ⟨-, hnone⟩
        simp [mkPermittivity] at hnone)]
      rfl

/-- The construction on the concrete system with binary records succeeds
and produces `exPSB`. -/
theorem exEvalB : from_records exRecs (some exB) = .ok exPSB := by
  unfold from_records
  have hk : kijFirstLong exRecs.length (some exB) = none := rfl
  rw [hk]
  rw [if_neg (by
    rintro ⟨-, hlt⟩
    rw [permRecords_exRecs, solventComp_exRecs] at hlt
    simp at hlt)]
  rw [permRecords_exRecs, permFold_exRecs]
  split
  · rename_i p heq
    exact Option.noConfusion heq
  · split
    · rename_i e heq
      exact Except.noConfusion heq
    · rename_i st heq
      injection heq with heq
      subst heq
      rw [if_neg (by
        rintro ⟨-, hnone⟩
        simp [mkPermittivity] at hnone)]
      rfl

/-- C1 counterexample: with no binary records supplied, construction with an
ionic component succeeds and the ionic self-pair entry `k_ij[1][1]` is the
zero vector, NOT `[1,0,0,0]` — refuting "regardless of whether binary
records were supplied". -/
theorem kij_ionic_self_counterexample :
    from_records exRecs none = .ok exPS ∧ 1 ∈ exPS.ionic_comp ∧
    exPS.z.getD 1 0 ≠ 0 ∧ exPS.k_ij 1 1 = [0, 0, 0, 0] ∧
    exPS.k_ij 1 1 ≠ [1, 0, 0, 0] := by
  refine ⟨exEval, ?_, ?_, rfl, ?_⟩
  · show 1 ∈ ionicComp exRecs
    rw [ionicComp_exRecs]
    simp
  · show (zList exRecs).getD 1 0 ≠ 0
    rw [zList_exRecs]
    norm_num
  · have hv : exPS.k_ij 1 1 = [0, 0, 0, 0] := rfl
    rw [hv]
    intro hc
    rw [List.cons.injEq] at hc
    norm_num at hc

/-- Witness for C8 at the concrete system. -/
theorem kij_zero_without_binary_witness :
    from_records exRecs none = .ok exPS ∧ exPS.k_ij 1 1 = [0, 0, 0, 0] :=
  ⟨exEval, kij_zero_without_binary exRecs exPS exEval 1 1⟩

/-- Witness for C6 at the concrete system. -/
theorem ionic_solvent_partition_witness :
    from_records exRecs none = .ok exPS ∧
    ((∀ i, i ∈ exPS.ionic_comp ↔ i < exRecs.length ∧ exPS.z.getD i 0 ≠ 0) ∧
      (∀ i, i ∈ exPS.solvent_comp ↔ i < exRecs.length ∧ exPS.z.getD i 0 = 0) ∧
      exPS.ionic_comp.Disjoint exPS.solvent_comp ∧
      (∀ i, i < exRecs.length ↔ (i ∈ exPS.ionic_comp ∨ i ∈ exPS.solvent_comp)) ∧
      List.Pairwise (· < ·) exPS.ionic_comp ∧
      List.Pairwise (· < ·) exPS.solvent_comp) :=
  ⟨exEval, ionic_solvent_partition exRecs none exPS exEval⟩

/-- Witness for the amended C1 at the concrete system with binary records. -/
theorem kij_ionic_self_forced_witness :
    from_records exRecs (some exB) = .ok exPSB ∧ 1 ∈ exPSB.ionic_comp ∧
    exPSB.k_ij 1 1 = [1, 0, 0, 0] := by
  have hmem : 1 ∈ exPSB.ionic_comp := by
    show 1 ∈ ionicComp exRecs
    rw [ionicComp_exRecs]
    simp
  exact ⟨exEvalB, hmem, kij_ionic_self_forced exRecs exB exPSB exEvalB 1 hmem⟩

/-- Witness for C3: the two-component system whose solvent lacks a
permittivity record fails to construct while an ion is present. -/
theorem missing_solvent_permittivity_fatal_witness :
    (∃ i, i < exBareRecs.length ∧ (zList exBareRecs).getD i 0 ≠ 0) ∧
    (permittivityRecords exBareRecs).length < (solventComp exBareRecs).length ∧
    ∃ e, from_records exBareRecs none = .error e := by
  have h1 : ∃ i, i < exBareRecs.length ∧ (zList exBareRecs).getD i 0 ≠ 0 := by
    refine ⟨1, by simp [exBareRecs], ?_⟩
    simp [zList, exBareRecs, wBareRec, naRec]
  have h2 : (permittivityRecords exBareRecs).length <
      (solventComp exBareRecs).length := by
    rw [show permittivityRecords exBareRecs = [] from
      by simp [permittivityRecords, exBareRecs, wBareRec, naRec]]
    rw [show solventComp exBareRecs = [0] from
      by simp [solventComp, zList, exBareRecs, wBareRec, naRec, List.range_succ]]
    simp
  exact ⟨h1, h2, missing_solvent_permittivity_fatal exBareRecs none h1 h2⟩

/-- Witness for C5: five coefficients on a pair make construction fail with
a pair-naming error; one coefficient per pair is accepted and padded. -/
theorem kij_length_check_witness :
    (∃ i j, from_records exRecs (some badB) = .error (.kijTooLong i j) ∧
      i < exRecs.length ∧ j < exRecs.length ∧ 4 < (badB i j).k_ij.length) ∧
    ((∀ i j, from_records exRecs (some exB) ≠ .error (.kijTooLong i j)) ∧
      (∀ i j, (exB i j).k_ij.length ≤ 4 →
        kijFill exB i j =
          (exB i j).k_ij ++ List.replicate (4 - (exB i j).k_ij.length) 0)) := by
  constructor
  · exact (kij_length_check exRecs badB).1
      ⟨0, 0, by simp [exRecs], by simp [exRecs], by simp [badB]⟩
  · exact (kij_length_check exRecs exB).2 (fun i j _ _ => by simp [exB])

/-- Witness for C4 at a concrete two-component system with one ion. -/
theorem hs_diameter_spec_witness :
    ionParams.nionic = ionParams.ionic_comp.length ∧ (0 : ℝ) < 1 ∧
    1 < ionParams.sigma.length ∧
    ((1 ∉ ionParams.ionic_comp →
      (hs_diameter ionParams 1).getD 1 0 =
        (sigma_t ionParams 1).getD 1 0 *
          (1 - 0.12 * Real.exp (-3 * ionParams.epsilon_k.getD 1 0 / 1))) ∧
    (1 ∈ ionParams.ionic_comp →
      (hs_diameter ionParams 1).getD 1 0 =
        0.88 * (sigma_t ionParams 1).getD 1 0)) :=
  ⟨rfl, by norm_num, by simp [ionParams, simpleParams],
    hs_diameter_spec ionParams 1 1 rfl (by norm_num)
      (by simp [ionParams, simpleParams])⟩

end EPcSaft
